import Mathlib

/-!
Verification of the high-order polar field processing pipeline
(`Functions/Mesh.py`, class `Triangle_mesh`) against its design
specification.

The Python source is shallowly embedded below.  Conventions:

* machine floats become real numbers (`ℝ`); complex numpy values become `ℂ`;
* numpy boolean-mask and fancy-indexing idioms become explicit `List.filter`
  computations over index ranges, preserving the order numpy produces
  (ascending indices);
* routines the repository imports from outside this file
  (`Functions.Auxiliary.complex_projection`, `Functions.Auxiliary.is_in_face`,
  `scipy.sparse.linalg.lsqr`, `networkx` spanning trees) are mesh-context
  parameters: deterministic functions carried by the `MeshCtx` structure,
  exactly as the specification treats them ("library primitives with
  documented input/output contracts");
* a Python `raise` becomes an `Except.error` carrying a constructor per
  distinct raise site;
* the request-scoped instance attributes that `compute_thetas` assigns
  (`I_F`, `F_singular`, `singularities_f`, `indices_f`, `V_singular`) are
  threaded explicitly as a `RequestState`, so that statements about state
  reuse across calls are expressible.
-/

/-- Dense real vectors indexed by naturals (numpy 1-d arrays). -/
abbrev Vec := ℕ → ℝ

/-- A 3d point (one row of `V`). -/
abbrev Point := Fin 3 → ℝ

/-- Euclidean norm of a 3-vector (`np.linalg.norm` on one row). -/
noncomputable def norm3 (p : Point) : ℝ :=
  Real.sqrt (p 0 ^ 2 + p 1 ^ 2 + p 2 ^ 2)

/-- Dot product of two 3-vectors (`np.einsum` on one row pair). -/
def dot3 (v w : Point) : ℝ := v 0 * w 0 + v 1 * w 1 + v 2 * w 2

/-- Default-tolerance `np.isclose(a, b)`: `|a - b| <= atol + rtol*|b|` with
`rtol = 1e-5`, `atol = 1e-8`. -/
def isclosePy (a b : ℝ) : Prop := |a - b| ≤ 1e-8 + 1e-5 * |b|

/-- Wrap an angle into `(-pi, pi]` the way line 503 of `Mesh.py` does:
`np.mod(x + pi, 2*pi) - pi`, with `np.mod a b = a - b*floor(a/b)`. -/
noncomputable def wrapAngle (x : ℝ) : ℝ :=
  (x + Real.pi) - 2 * Real.pi * ⌊(x + Real.pi) / (2 * Real.pi)⌋ - Real.pi

/-- First index of a largest-magnitude entry (`np.argmax(np.abs(l))`):
ties keep the earliest index, as numpy does.  The accumulator is
(best index, next index, best magnitude). -/
noncomputable def argmaxAbs (l : List ℝ) : ℕ :=
  (l.foldl
    (fun acc x =>
      if |x| > acc.2.2 then (acc.2.1, acc.2.1 + 1, |x|)
      else (acc.1, acc.2.1 + 1, acc.2.2))
    ((0 : ℕ), (0 : ℕ), (-1 : ℝ))).1

/-- Negate the entry at index `i` (`rotations[i] *= -1`). -/
def flipAt (l : List ℝ) (i : ℕ) : List ℝ :=
  l.enum.map (fun q => if q.1 = i then -q.2 else q.2)

/-- Number of entries of `l` lying in `s` (`np.sum(np.isin(l, s))` on one row). -/
def countMem (l : List ℕ) (s : List ℕ) : ℕ :=
  (l.filter (fun x => decide (x ∈ s))).length

/-- Append `v` to the list stored at key `k` (`self.singularities_f[f].append(...)`). -/
def appendAssoc {α : Type} (l : List (ℕ × List α)) (k : ℕ) (v : α) : List (ℕ × List α) :=
  l.map (fun p => if p.1 = k then (p.1, p.2 ++ [v]) else p)

/-- Replace the value stored at key `k` (`num_subdivisions_f[f] = num`). -/
def updateAssoc (l : List (ℕ × ℝ)) (k : ℕ) (v : ℝ) : List (ℕ × ℝ) :=
  l.map (fun p => if p.1 = k then (k, v) else p)

/-- Raise sites of the singularity-processing loop of `compute_thetas`
(`Mesh.py` lines 475-626), one constructor per distinct Python exception:
`placement` is the `ValueError` of line 625, `rotationNotZero` the
`ValueError` of line 508, and `indexErr` the `IndexError` a fancy-indexing
lookup such as `self.F_e[f_e][0, idx]` raises when its match list is empty. -/
inductive LoopErr where
  | placement (s : Point)
  | rotationNotZero (total : ℝ)
  | indexErr

/-- Exceptions `compute_thetas` can raise: the length-mismatch `ValueError`
of line 456, or an exception of the singularity loop. -/
inductive ThetaErr where
  | lengthMismatch
  | loop (e : LoopErr)

/-- Request-scoped instance attributes `compute_thetas` assigns
(lines 461-468): these survive on the object between calls, which is what
the idempotence claim is about. -/
structure RequestState where
  I_F : Vec
  F_singular : List ℕ
  singularities_f : List (ℕ × List Point)
  indices_f : List (ℕ × List ℤ)
  V_singular : List ℕ

/-- Local (per-call) state of the singularity loop: the request state plus
the local variables `Theta`, `mask_removed_f`, `mask_removed_e`
(lines 463-471). -/
structure LoopState where
  rs : RequestState
  Theta : Vec
  maskF : ℕ → Bool
  maskE : ℕ → Bool

/-- Immutable mesh context: everything `__init__` and
`initialise_field_processing` build once (sizes, incidence data, `d1`, `G_F`,
`H`, `G_H`) together with the external library primitives the pipeline
calls.  `cproj f w` is `Functions.Auxiliary.complex_projection` of vector `w`
into the tangent frame `(B1[f], B2[f], normals[f])`; `isInFace` is
`Functions.Auxiliary.is_in_face`; `lsqr rows cols A b` is
`scipy.sparse.linalg.lsqr(A, b)[0]` (a deterministic function of its
arguments).  Twin edges occupy extended-edge indices `0..nEtwin-1` and
combinatorial edges the next `nEcomb` indices, as in
`E_extended = concatenate([E_twin, E_comb])`. -/
structure MeshCtx where
  nV : ℕ
  nF : ℕ
  nFe : ℕ
  nFv : ℕ
  nEtwin : ℕ
  nEcomb : ℕ
  nCycles : ℕ
  Vorig : ℕ → Point
  Vext : ℕ → Point
  Fface : ℕ → List ℕ
  Ff : ℕ → List ℕ
  Fe : ℕ → List ℕ
  Vmap : ℕ → List ℕ
  FvMapEcomb : ℕ → List ℕ
  Ecomb : ℕ → ℕ × ℕ
  Eext : ℕ → ℕ × ℕ
  d1 : ℕ → ℕ → ℝ
  G_F : Vec
  H : ℕ → ℕ → ℝ
  G_H : Vec
  cproj : ℕ → Point → ℂ
  isInFace : Point → Option ℕ
  lsqr : ℕ → ℕ → (ℕ → ℕ → ℝ) → Vec → Vec

open Classical in
/-- Lines 505-506 of `Mesh.py`: when the wrapped per-edge rotations sum to
`±2π` within `1e-6`, flip the sign of the (first) largest-magnitude
component; otherwise leave them unchanged. -/
noncomputable def correctRotations (l : List ℝ) : List ℝ :=
  if |(|l.sum| - 2 * Real.pi)| < 1e-6 then flipAt l (argmaxAbs l) else l

open Classical in
/-- Lines 505-510 of `Mesh.py`: the flip of `correctRotations`, then the
hard consistency check (`raise ValueError` if the corrected rotations do not
sum to zero within `1e-6`), then the scaling `rotations *= index`. -/
noncomputable def validateRotations (l : List ℝ) (index : ℤ) : Except LoopErr (List ℝ) :=
  let r := correctRotations l
  if |r.sum| > 1e-6 then Except.error (LoopErr.rotationNotZero r.sum)
  else Except.ok (r.map (fun x => x * (index : ℝ)))

/-- Extended edges whose two endpoints both lie among the three extended
vertices of face-face `f` (line 485: the boolean mask `e_f`). -/
def faceEdges (ctx : MeshCtx) (f : ℕ) : List ℕ :=
  (List.range (ctx.nEtwin + ctx.nEcomb)).filter
    (fun e => decide ((ctx.Eext e).1 ∈ ctx.Ff f) && decide ((ctx.Eext e).2 ∈ ctx.Ff f))

open Classical in
/-- The inner helper `deal_singularity(f, singularity, index, in_face)` of
`compute_thetas` (lines 475-520): records the singularity on face `f`,
computes the per-edge rotations of the face from the projected complex
positions, validates/corrects them in the vertex/edge case, zeroes the
rotations adjacent to a corner the singularity coincides with
(numpy index `-1` wraps to the last entry), adds them into `Theta` over the
face's edges, and removes the face row and its edges from the free set. -/
noncomputable def dealSingularity (ctx : MeshCtx) (st : LoopState) (f : ℕ)
    (sing : Point) (index : ℤ) (inFace : Bool) : Except LoopErr LoopState :=
  let rs :=
    if f ∈ st.rs.F_singular then
      { st.rs with
        singularities_f := appendAssoc st.rs.singularities_f f sing,
        indices_f := appendAssoc st.rs.indices_f f index }
    else
      { st.rs with
        F_singular := st.rs.F_singular ++ [f],
        singularities_f := st.rs.singularities_f ++ [(f, [sing])],
        indices_f := st.rs.indices_f ++ [(f, [index])] }
  let eF := faceEdges ctx f
  let Z1 := eF.map (fun e => ctx.cproj f (sing - ctx.Vext (ctx.Eext e).1))
  let Z2 := eF.map (fun e => ctx.cproj f (sing - ctx.Vext (ctx.Eext e).2))
  let rotResult : Except LoopErr (List ℝ) :=
    if inFace then
      Except.ok ((Z1.zip Z2).map (fun z =>
        (index : ℝ) *
          Real.arccos (((starRingEnd ℂ) z.1 * z.2).re / (Complex.abs z.1 * Complex.abs z.2))))
    else
      validateRotations ((Z1.zip Z2).map (fun z => wrapAngle (z.2.arg - z.1.arg))) index
  match rotResult with
  | Except.error e => Except.error e
  | Except.ok rots =>
    let vSing := (List.range eF.length).filter (fun p =>
      decide (norm3 (sing - ctx.Vext (ctx.Eext (eF.getD p 0)).1) < 1e-6))
    let zeroed := vSing ++ vSing.map (fun p => if p = 0 then rots.length - 1 else p - 1)
    let rots2 := rots.enum.map (fun q => if q.1 ∈ zeroed then 0 else q.2)
    Except.ok
      { rs := rs,
        Theta := fun e =>
          if e ∈ eF then st.Theta e + rots2.getD (List.indexOf e eF) 0 else st.Theta e,
        maskF := fun g => if g = f then false else st.maskF g,
        maskE := fun e => if e ∈ eF then false else st.maskE e }

open Classical in
/-- Lines 531-533: original vertices the singular point coincides with
(`np.isclose` on every coordinate). -/
noncomputable def vertexMatches (ctx : MeshCtx) (sing : Point) : List ℕ :=
  (List.range ctx.nV).filter
    (fun v => decide (∀ i, isclosePy (ctx.Vorig v i) (sing i)))

open Classical in
/-- Lines 536-543: edge-faces whose defining segment contains the singular
point strictly inside (the obtuse + parallel test on the two endpoint
vectors). -/
noncomputable def edgeMatches (ctx : MeshCtx) (sing : Point) : List ℕ :=
  (List.range ctx.nFe).filter (fun i =>
    decide (dot3 (ctx.Vext ((ctx.Fe i).getD 0 0) - sing) (ctx.Vext ((ctx.Fe i).getD 1 0) - sing) < 0) &&
    decide (isclosePy
      |dot3 (ctx.Vext ((ctx.Fe i).getD 0 0) - sing) (ctx.Vext ((ctx.Fe i).getD 1 0) - sing)|
      (norm3 (ctx.Vext ((ctx.Fe i).getD 0 0) - sing) * norm3 (ctx.Vext ((ctx.Fe i).getD 1 0) - sing))))

/-- Lines 559-570, body of the `for e_comb in self.F_v_map_E_comb[...]` loop:
locate the edge-faces containing the combinatorial edge, remove their two
combinatorial-edge pairs and rows from the free set.  An empty match list
makes the fancy lookup `self.F_e[f_e][0, idx]` raise `IndexError`. -/
def maskCombEdge (ctx : MeshCtx) (st : LoopState) (ec : ℕ) : Except LoopErr LoopState :=
  let feL := (List.range ctx.nFe).filter (fun i =>
    decide (countMem (ctx.Fe i) [(ctx.Ecomb ec).1, (ctx.Ecomb ec).2] = 2))
  match feL with
  | [] => Except.error LoopErr.indexErr
  | fe0 :: _ =>
    let pair1 := [(ctx.Fe fe0).getD 0 0, (ctx.Fe fe0).getD 3 0]
    let pair2 := [(ctx.Fe fe0).getD 1 0, (ctx.Fe fe0).getD 2 0]
    let eSub1 := (List.range ctx.nEcomb).filter (fun e =>
      decide ((ctx.Ecomb e).1 ∈ pair1) && decide ((ctx.Ecomb e).2 ∈ pair1))
    let eSub2 := (List.range ctx.nEcomb).filter (fun e =>
      decide ((ctx.Ecomb e).1 ∈ pair2) && decide ((ctx.Ecomb e).2 ∈ pair2))
    Except.ok
      { st with
        maskE := fun x =>
          if x ∈ (eSub1 ++ eSub2).map (fun e => e + ctx.nEtwin) then false else st.maskE x,
        maskF := fun g => if g ∈ feL.map (fun i => ctx.nF + i) then false else st.maskF g }

/-- Lines 549-572: a singularity located at original vertex `v`.  Extends
`V_singular`, runs `deal_singularity` over every incident face (ascending
face index, as `np.where` returns), masks the combinatorial edges and
edge-face rows around the vertex, and removes the vertex-face row. -/
noncomputable def processVertex (ctx : MeshCtx) (st : LoopState) (sing : Point)
    (index : ℤ) (v : ℕ) : Except LoopErr LoopState :=
  let st1 :=
    if (ctx.Vmap v).getD 0 0 ∈ st.rs.V_singular then st
    else { st with rs := { st.rs with V_singular := st.rs.V_singular ++ ctx.Vmap v } }
  match ((List.range ctx.nF).filter (fun f => decide (v ∈ ctx.Fface f))).foldlM
      (fun s f => dealSingularity ctx s f sing index false) st1 with
  | Except.error e => Except.error e
  | Except.ok st2 =>
    match (ctx.FvMapEcomb v).foldlM (fun s ec => maskCombEdge ctx s ec) st2 with
    | Except.error e => Except.error e
    | Except.ok st3 =>
      Except.ok
        { st3 with maskF := fun g =>
            if g = ctx.nF + ctx.nFe + v then false else st3.maskF g }

/-- Lines 575-593: a singularity located inside original edge `ie`
(an edge-face index).  Runs `deal_singularity` on the two incident
face-faces, masks the two combinatorial edges, and removes the edge-face
row. -/
noncomputable def processEdge (ctx : MeshCtx) (st : LoopState) (sing : Point)
    (index : ℤ) (ie : ℕ) : Except LoopErr LoopState :=
  match ([0, 1] : List ℕ).foldlM
      (fun s i =>
        match (List.range ctx.nF).filter (fun f =>
            decide (countMem (ctx.Ff f) [(ctx.Fe ie).getD (2 * i) 0, (ctx.Fe ie).getD (2 * i + 1) 0] = 2)) with
        | [] => Except.error LoopErr.indexErr
        | f :: _ =>
          match dealSingularity ctx s f sing index false with
          | Except.error e => Except.error e
          | Except.ok s2 =>
            let comb := if i = 0 then [(ctx.Fe ie).getD 0 0, (ctx.Fe ie).getD 3 0]
                        else [(ctx.Fe ie).getD 1 0, (ctx.Fe ie).getD 2 0]
            let eComb := (List.range ctx.nEcomb).filter (fun e =>
              decide ((ctx.Ecomb e).1 ∈ comb) && decide ((ctx.Ecomb e).2 ∈ comb))
            Except.ok
              { s2 with maskE := fun x =>
                  if x ∈ eComb.map (fun e => e + ctx.nEtwin) then false else s2.maskE x })
      st with
  | Except.error e => Except.error e
  | Except.ok st2 =>
    Except.ok { st2 with maskF := fun g => if g = ctx.nF + ie then false else st2.maskF g }

/-- One iteration of the singularity loop (lines 524-625): skip index 0,
classify the location (vertex, then edge interior, then face interior) and
dispatch; a point matching nothing raises the placement `ValueError` of
line 625. -/
noncomputable def processOne (ctx : MeshCtx) (st : LoopState) (sing : Point)
    (index : ℤ) : Except LoopErr LoopState :=
  if index = 0 then Except.ok st
  else
    let inFv := vertexMatches ctx sing
    let inFe := edgeMatches ctx sing
    if inFv.length = 1 then processVertex ctx st sing index (inFv.getD 0 0)
    else if inFe.length = 1 then processEdge ctx st sing index (inFe.getD 0 0)
    else
      match ctx.isInFace sing with
      | some f => dealSingularity ctx st f sing index true
      | none => Except.error (LoopErr.placement sing)

/-- Fold that stops at the first raised exception, returning the state the
loop had accumulated so far together with the exception (a Python `for` loop
whose body may raise). -/
def foldExcept {σ α ε : Type} (f : σ → α → Except ε σ) : σ → List α → σ × Option ε
  | st, [] => (st, none)
  | st, a :: rest =>
    match f st a with
    | Except.ok st2 => foldExcept f st2 rest
    | Except.error e => (st, some e)

/-- The method `compute_thetas` (lines 450-680).  Checks the length match
first (line 455), resets the request-scoped attributes, runs the singularity
loop, and assembles and solves the KKT system of lines 639-666.  The
homology block of lines 645-652 is commented out in the source, so `H`,
`G_H` and `non_contractible` take no part: the constraint block `E` holds
only the free rows of `d1`, and the right-hand side only
`-(G_F + d1 Theta)` over those rows.  Returns the request state the call
leaves on the object and either the `Theta` vector or the exception raised.
On an abort inside the loop the returned state is the one accumulated before
the failing singularity. -/
noncomputable def computeThetas (ctx : MeshCtx) (prev : RequestState)
    (singularities : List Point) (indices : List ℤ) (weight_comb : ℝ)
    (non_contractible : Option (List ℝ)) : RequestState × Except ThetaErr Vec :=
  if singularities.length ≠ indices.length then
    (prev, Except.error ThetaErr.lengthMismatch)
  else
    let _nciArr := non_contractible.getD (List.replicate ctx.nCycles (0 : ℝ))
    let st0 : LoopState :=
      { rs := { I_F := fun _ => 0, F_singular := [], singularities_f := [],
                indices_f := [], V_singular := [] },
        Theta := fun _ => 0,
        maskF := fun _ => true,
        maskE := fun _ => true }
    match foldExcept (fun s q => processOne ctx s q.1 q.2) st0 (singularities.zip indices) with
    | (stEnd, some e) => (stEnd.rs, Except.error (ThetaErr.loop e))
    | (stEnd, none) =>
      let nE := ctx.nEtwin + ctx.nEcomb
      let freeE := (List.range nE).filter (fun e => stEnd.maskE e)
      let freeF := (List.range (ctx.nF + ctx.nFe + ctx.nFv)).filter (fun g => stEnd.maskF g)
      let k := freeE.length
      let KKTlhs : ℕ → ℕ → ℝ := fun i j =>
        if i < k then
          (if j < k then
            (if i = j then (if freeE.getD i 0 < ctx.nEtwin then 1 else weight_comb) else 0)
           else ctx.d1 (freeF.getD (j - k) 0) (freeE.getD i 0))
        else
          (if j < k then ctx.d1 (freeF.getD (i - k) 0) (freeE.getD j 0) else 0)
      let KKTrhs : Vec := fun i =>
        if i < k then 0
        else
          -(ctx.G_F (freeF.getD (i - k) 0)) -
            (Finset.range nE).sum (fun e => ctx.d1 (freeF.getD (i - k) 0) e * stEnd.Theta e)
      let sol := ctx.lsqr (k + freeF.length) (k + freeF.length) KKTlhs KKTrhs
      (stEnd.rs,
        Except.ok (fun e =>
          if e ∈ freeE then sol (List.indexOf e freeE) else stEnd.Theta e))

/-- One edge-face row entry of the incidence matrix `d1`
(`construct_d1_extended`, lines 309-317): the 4-vertex loop `f` of the
edge-face against one of its boundary edges `e`.  The successor test
`np.where(f == e[0])[0] == np.where(f == e[1])[0] - 1` becomes
`indexOf e.1 + 1 = indexOf e.2` (the loop's vertices are pairwise distinct),
the wrap-around test `f[-1] == e[0] and f[0] == e[1]` reads the last and
first entries.  Note the source assigns `-1` on the aligned branch and `+1`
on the reversed branch. -/
def d1EdgeEntry (f : List ℕ) (e : ℕ × ℕ) : Except String ℤ :=
  if (List.indexOf e.1 f + 1 = List.indexOf e.2 f) ∨
     (f.getD (f.length - 1) 0 = e.1 ∧ f.getD 0 0 = e.2) then Except.ok (-1)
  else if (List.indexOf e.1 f = List.indexOf e.2 f + 1) ∨
     (f.getD (f.length - 1) 0 = e.2 ∧ f.getD 0 0 = e.1) then Except.ok 1
  else Except.error "The edge is not in the face, or the edge face is wrongly defined."

/-- Cyclic-successor relation on a vertex loop, the spec's notion of an edge
direction aligned with the loop: `y` sits one position after `x`, wrapping
from the last vertex to the first. -/
def cyclicSucc (f : List ℕ) (x y : ℕ) : Prop :=
  List.indexOf y f = (List.indexOf x f + 1) % f.length

/-- Twin edges whose two endpoints both use extended ids of the two original
endpoint vertices of an edge (`construct_extended_mesh`, lines 176-181). -/
def twinMatches (Etwin : List (ℕ × ℕ)) (idx1 idx2 : List ℕ) : List (ℕ × ℕ) :=
  Etwin.filter (fun e => decide (e.1 ∈ idx1 ++ idx2) && decide (e.2 ∈ idx1 ++ idx2))

/-- Endpoint-membership pattern of a twin edge against the first vertex's
extended ids (`pairing = np.isin(e_twin, indices1_extended)`, line 187). -/
def membPattern (idx1 : List ℕ) (e : ℕ × ℕ) : Bool × Bool :=
  (decide (e.1 ∈ idx1), decide (e.2 ∈ idx1))

/-- Edge-face construction for one original edge
(`construct_extended_mesh`, lines 176-203): two matching twin edges make an
edge-face, the second reversed when the two membership patterns coincide and
kept when they are exactly reversed (any other pattern raises); one match is
a boundary edge and builds nothing; any other count raises. -/
def edgeFaceOf (Etwin : List (ℕ × ℕ)) (idx1 idx2 : List ℕ) :
    Except String (Option (List ℕ)) :=
  match twinMatches Etwin idx1 idx2 with
  | [e1, e2] =>
    if membPattern idx1 e1 = membPattern idx1 e2 then
      Except.ok (some [e1.1, e1.2, e2.2, e2.1])
    else if membPattern idx1 e1 = ((membPattern idx1 e2).2, (membPattern idx1 e2).1) then
      Except.ok (some [e1.1, e1.2, e2.1, e2.2])
    else Except.error "The twin edges are not aligned or opposite."
  | [_] => Except.ok none
  | _ => Except.error "Wrong number of twin edges found."

/-- Genus from the Euler characteristic (`Mesh.py` line 27, float division
kept exact as a rational). -/
def meshGenus (nV nE nF : ℤ) : ℚ := (2 - (nV - nE + nF)) / 2

/-- Membership of an (unordered, stored-both-ways) edge in a tree edge array
(lines 65-66: row equality against the tree rows or their reversals). -/
def includedIn (T : List (ℕ × ℕ)) (e : ℕ × ℕ) : Bool :=
  T.any (fun t => (e == t) || (e == (t.2, t.1)))

/-- Cotree edges (`get_homology_basis`, lines 65-81): primal edges in
neither the primal spanning tree `Tarr` nor, through their dual edge, the
dual spanning tree `Tdual`.  `E` and `Edual` are parallel lists (the i-th
dual edge joins the two faces of the i-th primal edge). -/
def cotreeEdges (E Edual : List (ℕ × ℕ)) (Tarr Tdual : List (ℕ × ℕ)) :
    List (ℕ × ℕ) :=
  ((E.zip Edual).filter
    (fun p => !(includedIn Tarr p.1 || includedIn Tdual p.2))).map (fun p => p.1)

/-- The tail of `get_homology_basis` (lines 81-105): the hard count check
against `2 * genus` (line 83-84), then one fundamental cycle per cotree edge
(`findCycle` is the `networkx` tree-cycle primitive: re-insert the edge,
`nx.find_cycle`, remove it). -/
def getHomologyBasis (E Edual Tarr Tdual : List (ℕ × ℕ)) (genus : ℚ)
    (findCycle : ℕ × ℕ → List (ℕ × ℕ)) : Except String (List (List (ℕ × ℕ))) :=
  let Eco := cotreeEdges E Edual Tarr Tdual
  if ((Eco.length : ℚ) ≠ 2 * genus) then
    Except.error "Expected 2*genus non-contractible edges."
  else Except.ok (Eco.map findCycle)

/-- The geometric rotation between the two faces of an edge-face
(`compute_face_pair_rotation`, line 360): `np.angle(U[1] / U[0])` for the
two complex projections of the shared edge vector. -/
noncomputable def pairRotation (u1 u2 : ℂ) : ℝ := (u2 / u1).arg

/-- Sign assignment of the rotation onto a combinatorial edge
(lines 363-378): positive when the stored direction of the combinatorial
edge equals the edge-face's corner ordering `fwd`, negated when it is the
exact reverse, and a raise otherwise. -/
def assignPairRotation (ecomb fwd : ℕ × ℕ) (rot : ℝ) : Except String ℝ :=
  if ecomb = fwd then Except.ok rot
  else if ecomb = (fwd.2, fwd.1) then Except.ok (-rot)
  else Except.error "The combinatorial edge and the edge-face order do not match."

/-- The `imag` attribute of a Python `int`: always zero.  Line 867 of
`Mesh.py` reads `j.imag` where `j` is the integer `enumerate` counter. -/
def pyIntImag (j : ℤ) : ℝ := 0

/-- The 4x4 real system `reconstruct_linear_from_corners` builds for a
negative-index singularity (lines 863-869), rows ordered as in the source;
entry (2,1) is `j.imag` (the loop counter), as written on line 867. -/
def negIndexLhs (zc zj : ℂ) (j : ℤ) : Fin 4 → Fin 4 → ℝ :=
  ![![zc.re, zc.im, 1, 0],
    ![-zc.im, zc.re, 0, 1],
    ![zj.re, pyIntImag j, 1, 0],
    ![-zj.im, zj.re, 0, 1]]

/-- Modelled from the spec: the real-linear row pair of the conjugate-term
expansion at a point `z` — the two rows whose dot product with
`(a.re, a.im, b.re, b.im)` gives the real and imaginary part of
`a * conj(z) + b`. -/
def conjRowsAt (z : ℂ) : Fin 2 → Fin 4 → ℝ :=
  ![![z.re, z.im, 1, 0],
    ![-z.im, z.re, 0, 1]]

/-- Modelled from the spec: the 4x4 system the claim describes for a
negative-index singularity — the conjugate-expansion row pair at the
singularity position `zc` stacked over the same row pair at the auxiliary
point `zj`. -/
def claimedNegLhs (zc zj : ℂ) : Fin 4 → Fin 4 → ℝ :=
  ![conjRowsAt zc 0, conjRowsAt zc 1, conjRowsAt zj 0, conjRowsAt zj 1]

/-- Number of subdivisions derived from one over-threshold edge rotation
(`subdivide_faces_over_pi`, line 728): `np.abs(Theta[e]) // (np.pi/2) + 1`,
a float floor division. -/
noncomputable def subdivisionNum (theta : ℝ) : ℝ :=
  (⌊|theta| / (Real.pi / 2)⌋ : ℝ) + 1

/-- Modelled from the spec: the claimed subdivision level
`N = ceil(|Theta| / (pi/2))`. -/
noncomputable def specCeilLevel (theta : ℝ) : ℤ :=
  ⌈|theta| / (Real.pi / 2)⌉

open Classical in
/-- Twin edges with `|Theta| > pi/2`
(line 716 and the loop head of line 720, twin block only). -/
noncomputable def overPiEdges (ctx : MeshCtx) (Theta : Vec) : List ℕ :=
  (List.range ctx.nEtwin).filter (fun e => decide (|Theta e| > Real.pi / 2))

/-- Face-faces containing both endpoints of twin edge `e`
(lines 721-723). -/
def facesOfTwinEdge (ctx : MeshCtx) (e : ℕ) : List ℕ :=
  (List.range ctx.nF).filter (fun f =>
    decide (countMem (ctx.Ff f) [(ctx.Eext e).1, (ctx.Eext e).2] = 2))

/-- The face `np.where(...)[0][0]` picks for a twin edge (head of the match
list). -/
def faceOfTwinEdge (ctx : MeshCtx) (e : ℕ) : ℕ :=
  (facesOfTwinEdge ctx e).getD 0 0

/-- One step of the marking loop of `subdivide_faces_over_pi`
(lines 720-735): find the face of the over-threshold twin edge, skip
singular faces, record the subdivision level, keeping the maximum when the
face was already marked.  The accumulator is `(F_over_pi,
num_subdivisions_f)`.  An edge whose face lookup is empty is skipped (the
source would raise `IndexError` there; no well-formed mesh produces it). -/
noncomputable def markStep (ctx : MeshCtx) (Theta : Vec) (Fsing : List ℕ)
    (acc : List ℕ × List (ℕ × ℝ)) (e : ℕ) : List ℕ × List (ℕ × ℝ) :=
  match facesOfTwinEdge ctx e with
  | [] => acc
  | f :: _ =>
    if f ∈ Fsing then acc
    else
      let num := subdivisionNum (Theta e)
      if f ∈ acc.1 then
        if (acc.2.lookup f).getD 0 < num then (acc.1, updateAssoc acc.2 f num) else acc
      else (acc.1 ++ [f], acc.2 ++ [(f, num)])

/-- The marking phase of `subdivide_faces_over_pi` (lines 713-735):
`F_over_pi` and `num_subdivisions_f` after the loop over all over-threshold
twin edges. -/
noncomputable def subdivisionMarks (ctx : MeshCtx) (Theta : Vec) (Fsing : List ℕ) :
    List ℕ × List (ℕ × ℝ) :=
  (overPiEdges ctx Theta).foldl (markStep ctx Theta Fsing) ([], [])

/-- The sub-triangle list of one subdivided face (lines 768-780): for each
barycentric row `i` and column `j`, the top triangle, plus the bottom
triangle when `j < N - i - 1`, with the index arithmetic of lines
771-779. -/
def subTriangles (N : ℕ) : List (List ℕ) :=
  (List.range N).flatMap (fun i =>
    (List.range (N - i)).flatMap (fun j =>
      [[i * (N + 1) - (i * (i - 1)) / 2 + j,
        i * (N + 1) - (i * (i - 1)) / 2 + j + 1,
        i * (N + 1) - (i * (i - 1)) / 2 + j + (N + 1 - i)]] ++
      (if j < N - i - 1 then
        [[i * (N + 1) - (i * (i - 1)) / 2 + j + 1,
          i * (N + 1) - (i * (i - 1)) / 2 + j + (N + 1 - i),
          i * (N + 1) - (i * (i - 1)) / 2 + j + (N + 1 - i) + 1]]
       else [])))

/-- Invariant of the marking loop: after consuming the edges of `seen`, a
face is marked iff it is non-singular and some seen edge with a non-empty
face lookup lands on it; marked faces and level-table keys coincide; and
each recorded level is a maximum of `subdivisionNum` over the face's seen
edges, attained by one of them. -/
def MarkInv (ctx : MeshCtx) (Theta : Vec) (Fsing : List ℕ) (seen : List ℕ)
    (acc : List ℕ × List (ℕ × ℝ)) : Prop :=
  (∀ f, f ∈ acc.1 ↔
    (f ∉ Fsing ∧ ∃ e ∈ seen, facesOfTwinEdge ctx e ≠ [] ∧ faceOfTwinEdge ctx e = f)) ∧
  (∀ f, f ∈ acc.1 ↔ (acc.2.lookup f).isSome) ∧
  (∀ f L, acc.2.lookup f = some L →
    ((∃ e ∈ seen, facesOfTwinEdge ctx e ≠ [] ∧ faceOfTwinEdge ctx e = f ∧
        L = subdivisionNum (Theta e)) ∧
     (∀ e ∈ seen, facesOfTwinEdge ctx e ≠ [] → faceOfTwinEdge ctx e = f →
        subdivisionNum (Theta e) ≤ L)))

/-- A request state with everything empty (the value `compute_thetas` resets
the instance attributes to). -/
def emptyRequestState : RequestState :=
  { I_F := fun _ => 0, F_singular := [], singularities_f := [],
    indices_f := [], V_singular := [] }

/-- A single-triangle mesh context used as a concrete evaluation instance:
one original vertex record at the origin, no edge-faces, and a point
location primitive that finds nothing (`is_in_face` returns `False` for a
point away from every face plane). -/
noncomputable def ctxOneTriangle : MeshCtx :=
  { nV := 1, nF := 0, nFe := 0, nFv := 0, nEtwin := 0, nEcomb := 0, nCycles := 0,
    Vorig := fun _ => fun _ => 0,
    Vext := fun _ => fun _ => 0,
    Fface := fun _ => [],
    Ff := fun _ => [],
    Fe := fun _ => [],
    Vmap := fun _ => [],
    FvMapEcomb := fun _ => [],
    Ecomb := fun _ => (0, 0),
    Eext := fun _ => (0, 0),
    d1 := fun _ _ => 0,
    G_F := fun _ => 0,
    H := fun _ _ => 0,
    G_H := fun _ => 0,
    cproj := fun _ _ => 0,
    isInFace := fun _ => none,
    lsqr := fun _ _ _ _ => fun _ => 0 }

/-- A point far from every vertex of `ctxOneTriangle`. -/
noncomputable def farPoint : Point := fun _ => 9

/-- The value `compute_thetas` returns (state excluded) does not depend on
the request state the previous call left on the object: every request-scoped
attribute is re-assigned before it is read (lines 461-471). -/
theorem computeThetas_snd_congr (ctx : MeshCtx) (p1 p2 : RequestState)
    (sing : List Point) (ind : List ℤ) (w : ℝ) (nci : Option (List ℝ)) :
    (computeThetas ctx p1 sing ind w nci).2 = (computeThetas ctx p2 sing ind w nci).2 := by
  unfold computeThetas
  by_cases h : sing.length ≠ ind.length
  · rw [if_pos h, if_pos h]
  · rw [if_neg h, if_neg h]

/-- Claim C9: running `compute_thetas` twice with identical arguments on the
same mesh context returns identical results — the second run is unaffected
by the request-scoped instance state (`F_singular`, `singularities_f`,
`indices_f`, masks) the first run leaves behind, because every such
attribute is reset before use. -/
theorem C9_compute_thetas_idempotent :
    ∀ (ctx : MeshCtx) (prev1 prev2 : RequestState) (sing : List Point)
      (ind : List ℤ) (w : ℝ) (nci : Option (List ℝ)),
      (computeThetas ctx prev1 sing ind w nci).2 =
        (computeThetas ctx prev2 sing ind w nci).2 ∧
      (computeThetas ctx (computeThetas ctx prev1 sing ind w nci).1 sing ind w nci).2 =
        (computeThetas ctx prev1 sing ind w nci).2 := by
  intro ctx p1 p2 sing ind w nci
  exact ⟨computeThetas_snd_congr ctx p1 p2 sing ind w nci,
         computeThetas_snd_congr ctx (computeThetas ctx p1 sing ind w nci).1 p1 sing ind w nci⟩

/-- Claim C1: the active code of `compute_thetas` never uses `H`, `G_H` or
`non_contractible_indices` (the homology block of lines 645-652 is commented
out), so the returned connection is identical for any two prescribed
holonomy vectors; since the right-hand sides `2*pi*[1,0] - G_H` and
`2*pi*[0,0] - G_H` of the claimed constraint differ by `2*pi > 0` in the
first row, one connection cannot satisfy the claimed homology constraint for
every requested holonomy. -/
theorem C1_holonomy_ignored :
    ∀ (ctx : MeshCtx) (prev : RequestState) (sing : List Point) (ind : List ℤ)
      (w : ℝ) (nci1 nci2 : Option (List ℝ)),
      computeThetas ctx prev sing ind w nci1 = computeThetas ctx prev sing ind w nci2 ∧
      (∀ gH : ℝ, (2 * Real.pi * 1 - gH) - (2 * Real.pi * 0 - gH) = 2 * Real.pi) ∧
      0 < 2 * Real.pi := by
  intro ctx prev sing ind w nci1 nci2
  refine ⟨rfl, fun gH => by ring, by positivity⟩

/-- Claim C10 (amended): `compute_thetas` raises the length-mismatch
`ValueError` exactly when the singularity and index sequences differ in
length, and that raise happens before any request-scoped state is created or
modified, so the call leaves the state unchanged.  (Other `ValueError`s can
still be raised later, with equal lengths, by the placement and
rotation-consistency checks — see the counterexample.) -/
theorem C10_length_mismatch_check :
    ∀ (ctx : MeshCtx) (prev : RequestState) (sing : List Point) (ind : List ℤ)
      (w : ℝ) (nci : Option (List ℝ)),
      computeThetas ctx prev sing ind w nci =
          (prev, Except.error ThetaErr.lengthMismatch) ↔
        sing.length ≠ ind.length := by
  intro ctx prev sing ind w nci
  unfold computeThetas
  by_cases h : sing.length ≠ ind.length
  · rw [if_pos h]
    exact ⟨fun _ => h, fun _ => rfl⟩
  · rw [if_neg h]
    constructor
    · intro heq
      exfalso
      revert heq
      rcases hfold : foldExcept (fun s q => processOne ctx s q.1 q.2)
          { rs := { I_F := fun _ => 0, F_singular := [], singularities_f := [],
                    indices_f := [], V_singular := [] },
            Theta := fun _ => 0, maskF := fun _ => true, maskE := fun _ => true }
          (sing.zip ind) with ⟨stEnd, oe⟩
      cases oe with
      | some e => simp [hfold, Prod.ext_iff]
      | none => simp [hfold, Prod.ext_iff]
    · intro hne
      exact absurd hne h

/-- No vertex of the one-triangle context coincides with the far point:
`np.isclose` fails on the first coordinate (9 is far from 0). -/
theorem vertexMatches_far : vertexMatches ctxOneTriangle farPoint = [] := by
  have h9 : ¬ (∀ i : Fin 3, isclosePy (ctxOneTriangle.Vorig 0 i) (farPoint i)) := by
    intro hall
    have h0 := hall 0
    simp only [ctxOneTriangle, farPoint, isclosePy] at h0
    rw [show (0 : ℝ) - 9 = -9 by norm_num, abs_neg] at h0
    norm_num at h0
  unfold vertexMatches
  rw [show List.range ctxOneTriangle.nV = [0] from by rfl]
  simp [h9]

/-- The one-triangle context has no edge-faces, so the edge-location test
matches nothing. -/
theorem edgeMatches_far : edgeMatches ctxOneTriangle farPoint = [] := by
  unfold edgeMatches
  rw [show List.range ctxOneTriangle.nFe = [] from by rfl]
  rfl

/-- Processing the far singularity on the one-triangle context raises the
placement `ValueError` of line 625: it is on no vertex, no edge interior and
no face. -/
theorem processOne_far (st : LoopState) :
    processOne ctxOneTriangle st farPoint 1 =
      Except.error (LoopErr.placement farPoint) := by
  unfold processOne
  rw [if_neg (by norm_num : ¬ (1 : ℤ) = 0)]
  rw [vertexMatches_far, edgeMatches_far]
  rfl

/-- Claim C10, counterexample to the claim as stated: a call with equal-length
sequences (one singularity, one index) still raises a `ValueError` — the
placement error — so `compute_thetas` does not raise a `ValueError` *exactly*
when the sequence lengths differ. -/
theorem C10_counterexample :
    computeThetas ctxOneTriangle emptyRequestState [farPoint] [1] 10 none =
      (emptyRequestState, Except.error (ThetaErr.loop (LoopErr.placement farPoint))) ∧
    ([farPoint].length = [(1 : ℤ)].length) := by
  constructor
  · unfold computeThetas
    rw [if_neg (by norm_num : ¬ ([farPoint].length ≠ ([1] : List ℤ).length))]
    have hz : ([farPoint].zip ([1] : List ℤ)) = [(farPoint, (1 : ℤ))] := rfl
    rw [hz]
    have hfold : ∀ st : LoopState,
        foldExcept (fun s q => processOne ctxOneTriangle s q.1 q.2) st
          [(farPoint, (1 : ℤ))] = (st, some (LoopErr.placement farPoint)) := by
      intro st
      unfold foldExcept
      rw [processOne_far]
    simp only [hfold]
    rfl
  · rfl

/-- The conjugate-expansion row pair really encodes the real and imaginary
parts of the anti-holomorphic field `a * conj(z) + b` at `z`, justifying
`conjRowsAt` as the matrix the specification describes. -/
theorem conjRowsAt_encodes_field (z a b : ℂ) :
    conjRowsAt z 0 0 * a.re + conjRowsAt z 0 1 * a.im + conjRowsAt z 0 2 * b.re +
        conjRowsAt z 0 3 * b.im = (a * (starRingEnd ℂ) z + b).re ∧
    conjRowsAt z 1 0 * a.re + conjRowsAt z 1 1 * a.im + conjRowsAt z 1 2 * b.re +
        conjRowsAt z 1 3 * b.im = (a * (starRingEnd ℂ) z + b).im := by
  constructor <;>
    simp [conjRowsAt, Complex.add_re, Complex.add_im, Complex.mul_re, Complex.mul_im] <;>
    ring

/-- Claim C4: in the negative-index branch of
`reconstruct_linear_from_corners`, the third row of the 4x4 system is not
the conjugate-expansion row at the auxiliary point `zj`: its second entry is
`j.imag` (identically zero, `j` being the integer loop counter), not
`zj.imag`.  At `zc = 0`, `zj = i`, `j = 0` the code's entry (2,1) is 0 while
the claimed matrix has 1 there. -/
theorem C4_negative_index_row_bug :
    negIndexLhs 0 Complex.I 0 2 1 = 0 ∧
    claimedNegLhs 0 Complex.I 2 1 = 1 ∧
    negIndexLhs 0 Complex.I 0 2 1 ≠ claimedNegLhs 0 Complex.I 2 1 := by
  have h0 : negIndexLhs 0 Complex.I 0 2 1 = 0 := by rfl
  have h1 : claimedNegLhs 0 Complex.I 2 1 = 1 := by
    show Complex.I.im = 1
    rfl
  refine ⟨h0, h1, ?_⟩
  rw [h0, h1]
  norm_num

/-- Claim C8, counterexample to exact antisymmetry: when the two complex
directions are exactly opposite, `np.angle` gives `pi` in both orders
(`angle` takes values in `(-pi, pi]`), and `pi` is not `-pi`. -/
theorem C8_counterexample :
    pairRotation 1 (-1) = Real.pi ∧ pairRotation (-1) 1 = Real.pi ∧
    Real.pi ≠ -Real.pi := by
  refine ⟨?_, ?_, ?_⟩
  · unfold pairRotation
    norm_num [Complex.arg_neg_one]
  · unfold pairRotation
    norm_num [Complex.arg_neg_one]
  · intro h
    have hp := Real.pi_pos
    linarith

/-- Claim C8 (amended): the pair rotation from face 1 to face 2 is the exact
negative of the rotation from face 2 to face 1 whenever the rotation is not
exactly `pi` (opposite projected directions give `pi` both ways); and the
value assigned to a combinatorial edge is the rotation when the stored edge
direction equals the edge-face corner order, its negation when the direction
is the exact reverse, and a raise otherwise (lines 363-378). -/
theorem C8_pair_rotation_antisymmetry :
    ∀ (u1 u2 : ℂ) (ec fwd : ℕ × ℕ) (rot : ℝ),
      (pairRotation u1 u2 ≠ Real.pi → pairRotation u2 u1 = -pairRotation u1 u2) ∧
      (assignPairRotation fwd fwd rot = Except.ok rot) ∧
      (ec ≠ fwd → ec = (fwd.2, fwd.1) → assignPairRotation ec fwd rot = Except.ok (-rot)) ∧
      (ec ≠ fwd → ec ≠ (fwd.2, fwd.1) → assignPairRotation ec fwd rot =
        Except.error "The combinatorial edge and the edge-face order do not match.") := by
  intro u1 u2 ec fwd rot
  refine ⟨?_, ?_, ?_, ?_⟩
  · intro h
    unfold pairRotation at h ⊢
    rw [← inv_div u2 u1, Complex.arg_inv, if_neg h]
  · unfold assignPairRotation
    rw [if_pos rfl]
  · intro h1 h2
    unfold assignPairRotation
    rw [if_neg h1, if_pos h2]
  · intro h1 h2
    unfold assignPairRotation
    rw [if_neg h1, if_neg h2]

/-- Claim C7: `get_homology_basis` returns exactly `2*genus` fundamental
cycles, with genus computed from the Euler characteristic, and raises
exactly when the number of edges outside both spanning trees differs from
`2*genus` (in which case no cycle list is produced). -/
theorem C7_homology_basis_count :
    ∀ (nV nF : ℤ) (E Edual Tarr Tdual : List (ℕ × ℕ))
      (findCycle : ℕ × ℕ → List (ℕ × ℕ)),
      (∀ cycles,
        getHomologyBasis E Edual Tarr Tdual (meshGenus nV E.length nF) findCycle =
            Except.ok cycles →
          (cycles.length : ℚ) = 2 * meshGenus nV E.length nF) ∧
      ((∃ s, getHomologyBasis E Edual Tarr Tdual (meshGenus nV E.length nF) findCycle =
          Except.error s) ↔
        ((cotreeEdges E Edual Tarr Tdual).length : ℚ) ≠ 2 * meshGenus nV E.length nF) := by
  intro nV nF E Edual Tarr Tdual fc
  unfold getHomologyBasis
  by_cases h : ((cotreeEdges E Edual Tarr Tdual).length : ℚ) ≠ 2 * meshGenus nV E.length nF
  · rw [if_pos h]
    constructor
    · intro cycles hc
      cases hc
    · exact ⟨fun _ => h, fun _ => ⟨_, rfl⟩⟩
  · rw [if_neg h]
    push_neg at h
    constructor
    · intro cycles hc
      have hlen : cycles = (cotreeEdges E Edual Tarr Tdual).map fc := by
        injection hc with h2
        exact h2.symm
      rw [hlen, List.length_map]
      exact_mod_cast h
    · constructor
      · intro hs
        rcases hs with ⟨s, hs⟩
        cases hs
      · intro hne
        exact absurd h hne

/-- Claim C6: the edge-face construction of `construct_extended_mesh` —
on exactly two matching twin edges it builds one edge-face, reversing the
second twin edge exactly when the endpoint-membership patterns coincide and
keeping it when they are exactly reversed, raising for any other pattern; on
exactly one match it builds nothing (boundary edge); any other match count
raises a topology error. -/
theorem C6_edge_face_construction :
    ∀ (Etwin : List (ℕ × ℕ)) (idx1 idx2 : List ℕ) (e1 e2 : ℕ × ℕ),
      (twinMatches Etwin idx1 idx2 = [e1, e2] →
        ((membPattern idx1 e1 = membPattern idx1 e2 →
          edgeFaceOf Etwin idx1 idx2 = Except.ok (some [e1.1, e1.2, e2.2, e2.1])) ∧
         (membPattern idx1 e1 ≠ membPattern idx1 e2 →
          membPattern idx1 e1 = ((membPattern idx1 e2).2, (membPattern idx1 e2).1) →
          edgeFaceOf Etwin idx1 idx2 = Except.ok (some [e1.1, e1.2, e2.1, e2.2])) ∧
         (membPattern idx1 e1 ≠ membPattern idx1 e2 →
          membPattern idx1 e1 ≠ ((membPattern idx1 e2).2, (membPattern idx1 e2).1) →
          edgeFaceOf Etwin idx1 idx2 =
            Except.error "The twin edges are not aligned or opposite."))) ∧
      (twinMatches Etwin idx1 idx2 = [e1] → edgeFaceOf Etwin idx1 idx2 = Except.ok none) ∧
      (twinMatches Etwin idx1 idx2 = [] →
        edgeFaceOf Etwin idx1 idx2 = Except.error "Wrong number of twin edges found.") ∧
      (∀ e3 rest, twinMatches Etwin idx1 idx2 = e1 :: e2 :: e3 :: rest →
        edgeFaceOf Etwin idx1 idx2 = Except.error "Wrong number of twin edges found.") := by
  intro Etwin idx1 idx2 e1 e2
  refine ⟨?_, ?_, ?_, ?_⟩
  · intro h
    have hred : edgeFaceOf Etwin idx1 idx2 =
        (if membPattern idx1 e1 = membPattern idx1 e2 then
          Except.ok (some [e1.1, e1.2, e2.2, e2.1])
        else if membPattern idx1 e1 = ((membPattern idx1 e2).2, (membPattern idx1 e2).1) then
          Except.ok (some [e1.1, e1.2, e2.1, e2.2])
        else Except.error "The twin edges are not aligned or opposite.") := by
      unfold edgeFaceOf
      rw [h]
    refine ⟨?_, ?_, ?_⟩
    · intro hp
      rw [hred, if_pos hp]
    · intro hp1 hp2
      rw [hred, if_neg hp1, if_pos hp2]
    · intro hp1 hp2
      rw [hred, if_neg hp1, if_neg hp2]
  · intro h
    unfold edgeFaceOf
    rw [h]
  · intro h
    unfold edgeFaceOf
    rw [h]
  · intro e3 rest h
    unfold edgeFaceOf
    rw [h]

/-- Claim C3, counterexample to the claim as stated: wrapped rotations that
fail the zero-sum consistency check without being a `2*pi` wrap-around are
not corrected by a sign flip — the solver raises the `ValueError` of line
508, aborting the field request.  Here the single rotation `1` sums to `1`,
which is neither within `1e-6` of `±2*pi` nor within `1e-6` of zero. -/
theorem C3_counterexample :
    validateRotations [1] 1 = Except.error (LoopErr.rotationNotZero 1) := by
  have hsum : ([1] : List ℝ).sum = 1 := by simp
  have hcond : ¬ |(|([1] : List ℝ).sum| - 2 * Real.pi)| < 1e-6 := by
    rw [hsum, abs_one]
    rw [abs_of_neg (by nlinarith [Real.pi_gt_three])]
    nlinarith [Real.pi_gt_three]
  have hcr : correctRotations [1] = [1] := by
    unfold correctRotations
    rw [if_neg hcond]
  unfold validateRotations
  simp only [hcr, hsum, abs_one]
  rw [if_pos (by norm_num)]

/-- Claim C3 (amended): for a vertex- or edge-located singularity the solver
flips the sign of the (first) largest-magnitude rotation component exactly
when the wrapped rotations sum to `±2*pi` within `1e-6`; if the (possibly
corrected) rotations still fail to sum to zero within `1e-6` it raises a
`ValueError`, aborting the field request; otherwise it returns the
index-scaled rotations.  No logging accompanies the adjustment. -/
theorem C3_rotation_fixup_behaviour :
    ∀ (l : List ℝ) (index : ℤ),
      (|(|l.sum| - 2 * Real.pi)| < 1e-6 → correctRotations l = flipAt l (argmaxAbs l)) ∧
      (¬ |(|l.sum| - 2 * Real.pi)| < 1e-6 → correctRotations l = l) ∧
      (|(correctRotations l).sum| > 1e-6 →
        validateRotations l index =
          Except.error (LoopErr.rotationNotZero (correctRotations l).sum)) ∧
      (¬ |(correctRotations l).sum| > 1e-6 →
        validateRotations l index =
          Except.ok ((correctRotations l).map (fun x => x * (index : ℝ)))) := by
  intro l index
  refine ⟨?_, ?_, ?_, ?_⟩
  · intro h
    unfold correctRotations
    rw [if_pos h]
  · intro h
    unfold correctRotations
    rw [if_neg h]
  · intro h
    unfold validateRotations
    rw [if_pos h]
  · intro h
    unfold validateRotations
    rw [if_neg h]

/-- Claim C2 (amended): for an edge-face loop of four pairwise-distinct
vertices and a boundary edge with both endpoints on the loop, the row of
`d1` assigns `-1` exactly when the edge direction is the cyclic successor
direction of the loop (successor position or wrap-around) and `+1` exactly
when it is the reverse, raising for any edge matching neither pattern — the
signs are the opposite of the claimed ones (`construct_d1_extended`, lines
309-317, where the aligned branch writes `-1`). -/
theorem C2_d1_edge_face_sign_convention :
    ∀ (a b c d e1 e2 : ℕ),
      [a, b, c, d].Nodup → e1 ∈ [a, b, c, d] → e2 ∈ [a, b, c, d] →
      ((d1EdgeEntry [a, b, c, d] (e1, e2) = Except.ok (-1) ↔
          cyclicSucc [a, b, c, d] e1 e2) ∧
       (d1EdgeEntry [a, b, c, d] (e1, e2) = Except.ok 1 ↔
          cyclicSucc [a, b, c, d] e2 e1) ∧
       ((∃ s, d1EdgeEntry [a, b, c, d] (e1, e2) = Except.error s) ↔
         (¬ cyclicSucc [a, b, c, d] e1 e2 ∧ ¬ cyclicSucc [a, b, c, d] e2 e1))) := by
  intro a b c d e1 e2 hnd hm1 hm2
  simp only [List.nodup_cons, List.mem_cons, List.mem_singleton, List.not_mem_nil,
    or_false, not_or, List.nodup_nil, and_true] at hnd
  obtain ⟨⟨hab, hac, had⟩, ⟨hbc, hbd⟩, hcd, -⟩ := hnd
  have i0 : List.indexOf a [a, b, c, d] = 0 := List.indexOf_cons_self a _
  have i1 : List.indexOf b [a, b, c, d] = 1 := by
    rw [List.indexOf_cons_ne _ hab, List.indexOf_cons_self]
  have i2 : List.indexOf c [a, b, c, d] = 2 := by
    rw [List.indexOf_cons_ne _ hac, List.indexOf_cons_ne _ hbc, List.indexOf_cons_self]
  have i3 : List.indexOf d [a, b, c, d] = 3 := by
    rw [List.indexOf_cons_ne _ had, List.indexOf_cons_ne _ hbd,
      List.indexOf_cons_ne _ hcd, List.indexOf_cons_self]
  simp only [List.mem_cons, List.mem_singleton, List.not_mem_nil, or_false] at hm1 hm2
  unfold d1EdgeEntry cyclicSucc
  rcases hm1 with rfl | rfl | rfl | rfl <;> rcases hm2 with rfl | rfl | rfl | rfl <;>
    simp_all [List.length_cons, ne_comm]

/-- Claim C2, counterexample to the claim as stated: in the loop
`[0, 1, 2, 3]` the edge `(0, 1)` runs along the cyclic successor direction
(it is aligned with the face loop), yet the code assigns it `-1`, not the
claimed `+1`. -/
theorem C2_counterexample :
    d1EdgeEntry [0, 1, 2, 3] (0, 1) = Except.ok (-1) ∧
    cyclicSucc [0, 1, 2, 3] 0 1 ∧
    d1EdgeEntry [0, 1, 2, 3] (0, 1) ≠ Except.ok 1 := by
  refine ⟨rfl, by unfold cyclicSucc; rfl, ?_⟩
  intro h
  rw [show d1EdgeEntry [0, 1, 2, 3] (0, 1) = Except.ok (-1) from rfl] at h
  exact absurd (Except.ok.inj h) (by decide)

/-- Claim C2, witness: the amended sign characterization instantiated on the
concrete loop `[0, 1, 2, 3]` with the aligned edge `(1, 2)`. -/
theorem C2_witness :
    ([0, 1, 2, 3] : List ℕ).Nodup ∧ (1 : ℕ) ∈ ([0, 1, 2, 3] : List ℕ) ∧
    (2 : ℕ) ∈ ([0, 1, 2, 3] : List ℕ) ∧
    ((d1EdgeEntry [0, 1, 2, 3] (1, 2) = Except.ok (-1) ↔
        cyclicSucc [0, 1, 2, 3] 1 2) ∧
     (d1EdgeEntry [0, 1, 2, 3] (1, 2) = Except.ok 1 ↔
        cyclicSucc [0, 1, 2, 3] 2 1) ∧
     ((∃ s, d1EdgeEntry [0, 1, 2, 3] (1, 2) = Except.error s) ↔
       (¬ cyclicSucc [0, 1, 2, 3] 1 2 ∧ ¬ cyclicSucc [0, 1, 2, 3] 2 1))) :=
  ⟨by decide, by decide, by decide,
    C2_d1_edge_face_sign_convention 0 1 2 3 1 2 (by decide) (by decide) (by decide)⟩

/-- Claim C5, counterexample to the ceiling formula: at an edge rotation of
exactly `pi` (over the `pi/2` threshold) the code computes
`pi // (pi/2) + 1 = 3` subdivisions, while `ceil(pi / (pi/2)) = 2` — floor
division plus one differs from the ceiling at exact multiples of `pi/2`. -/
theorem C5_counterexample :
    subdivisionNum Real.pi = 3 ∧ specCeilLevel Real.pi = 2 ∧
    Real.pi / 2 < |Real.pi| ∧
    subdivisionNum Real.pi ≠ ((specCeilLevel Real.pi : ℤ) : ℝ) := by
  have habs : |Real.pi| = Real.pi := abs_of_pos Real.pi_pos
  have hdiv : |Real.pi| / (Real.pi / 2) = 2 := by
    rw [habs, div_eq_iff (by positivity : Real.pi / 2 ≠ 0)]
    ring
  have h1 : subdivisionNum Real.pi = 3 := by
    unfold subdivisionNum
    rw [hdiv]
    norm_num
  have h2 : specCeilLevel Real.pi = 2 := by
    unfold specCeilLevel
    rw [hdiv]
    norm_num
  refine ⟨h1, h2, ?_, ?_⟩
  · rw [habs]
    linarith [Real.pi_pos]
  · rw [h1, h2]
    norm_num

/-- Sums over `List.range` agree with sums over `Finset.range`. -/
theorem list_range_map_sum (n : ℕ) (g : ℕ → ℕ) :
    ((List.range n).map g).sum = ∑ j ∈ Finset.range n, g j := by
  induction n with
  | zero => simp
  | succ k ih =>
    rw [List.range_succ, List.map_append, List.sum_append, Finset.sum_range_succ, ih]
    simp

/-- Sum of the first `N` odd numbers. -/
theorem sum_first_odds (N : ℕ) : ∑ j ∈ Finset.range N, (2 * j + 1) = N ^ 2 := by
  induction N with
  | zero => simp
  | succ k ih =>
    rw [Finset.sum_range_succ, ih]
    ring

/-- Row `i` of the barycentric subdivision contributes `2*(N-i) - 1`
sub-triangles: one top triangle per column and one bottom triangle for all
but the last column. -/
theorem subTriangles_row_length (m : ℕ) (x y : ℕ → List ℕ) :
    ((List.range m).map
      (fun j => ([x j] ++ if j < m - 1 then [y j] else []).length)).sum = 2 * m - 1 := by
  rw [list_range_map_sum]
  have hlen : ∀ j, ([x j] ++ if j < m - 1 then [y j] else []).length =
      1 + (if j < m - 1 then 1 else 0) := by
    intro j
    by_cases h : j < m - 1
    · rw [if_pos h, if_pos h]
      rfl
    · rw [if_neg h, if_neg h]
      rfl
  rw [Finset.sum_congr rfl (fun j _ => hlen j)]
  rw [Finset.sum_add_distrib, Finset.sum_const, Finset.card_range, smul_eq_mul, mul_one]
  cases m with
  | zero => simp
  | succ k =>
    have hsplit : ∑ j ∈ Finset.range (k + 1), (if j < k + 1 - 1 then 1 else 0) = k := by
      rw [Finset.sum_range_succ]
      rw [if_neg (by omega)]
      rw [Finset.sum_congr rfl (fun j hj => if_pos (by
        simp only [Finset.mem_range] at hj
        omega))]
      simp
    rw [hsplit]
    omega

/-- Claim C5, sub-triangle count: a face subdivided at level `N` produces
exactly `N^2` barycentric sub-triangles (lines 768-780). -/
theorem subTriangles_length (N : ℕ) : (subTriangles N).length = N ^ 2 := by
  unfold subTriangles
  rw [List.length_flatMap]
  have hrow : ∀ i : ℕ,
      ((List.range (N - i)).flatMap (fun j =>
        [[i * (N + 1) - (i * (i - 1)) / 2 + j,
          i * (N + 1) - (i * (i - 1)) / 2 + j + 1,
          i * (N + 1) - (i * (i - 1)) / 2 + j + (N + 1 - i)]] ++
        (if j < N - i - 1 then
          [[i * (N + 1) - (i * (i - 1)) / 2 + j + 1,
            i * (N + 1) - (i * (i - 1)) / 2 + j + (N + 1 - i),
            i * (N + 1) - (i * (i - 1)) / 2 + j + (N + 1 - i) + 1]]
         else []))).length = 2 * (N - i) - 1 := by
    intro i
    rw [List.length_flatMap]
    exact subTriangles_row_length (N - i)
      (fun j => [i * (N + 1) - (i * (i - 1)) / 2 + j,
        i * (N + 1) - (i * (i - 1)) / 2 + j + 1,
        i * (N + 1) - (i * (i - 1)) / 2 + j + (N + 1 - i)])
      (fun j => [i * (N + 1) - (i * (i - 1)) / 2 + j + 1,
        i * (N + 1) - (i * (i - 1)) / 2 + j + (N + 1 - i),
        i * (N + 1) - (i * (i - 1)) / 2 + j + (N + 1 - i) + 1])
  rw [show (List.length ∘ fun i => (List.range (N - i)).flatMap (fun j =>
      [[i * (N + 1) - (i * (i - 1)) / 2 + j,
        i * (N + 1) - (i * (i - 1)) / 2 + j + 1,
        i * (N + 1) - (i * (i - 1)) / 2 + j + (N + 1 - i)]] ++
      (if j < N - i - 1 then
        [[i * (N + 1) - (i * (i - 1)) / 2 + j + 1,
          i * (N + 1) - (i * (i - 1)) / 2 + j + (N + 1 - i),
          i * (N + 1) - (i * (i - 1)) / 2 + j + (N + 1 - i) + 1]]
       else []))) = fun i => 2 * (N - i) - 1 from funext fun i => hrow i]
  rw [list_range_map_sum]
  rw [Finset.sum_congr rfl (fun i hi => show 2 * (N - i) - 1 =
    (fun k => 2 * k + 1) (N - 1 - i) from by
      simp only [Finset.mem_range] at hi
      simp only
      omega)]
  rw [Finset.sum_range_reflect (fun k => 2 * k + 1) N]
  exact sum_first_odds N

/-- Lookup on a cons cell whose key matches. -/
theorem lookup_cons_eq {b : Type} (a : ℕ) (v : b) (t : List (ℕ × b)) :
    List.lookup a ((a, v) :: t) = some v := by
  simp [List.lookup_cons]

/-- Lookup on a cons cell whose key differs. -/
theorem lookup_cons_ne {b : Type} (k a : ℕ) (v : b) (t : List (ℕ × b)) (h : k ≠ a) :
    List.lookup k ((a, v) :: t) = List.lookup k t := by
  simp [List.lookup_cons, beq_eq_false_iff_ne.mpr h]

/-- Lookup after a dict update: the updated key reads the new value when it
was present, every other key is untouched. -/
theorem lookup_updateAssoc (l : List (ℕ × ℝ)) (k : ℕ) (v : ℝ) (k2 : ℕ) :
    (updateAssoc l k v).lookup k2 =
      if k2 = k then (l.lookup k).map (fun _ => v) else l.lookup k2 := by
  induction l with
  | nil =>
    simp only [updateAssoc, List.map_nil, List.lookup_nil, Option.map_none']
    split <;> rfl
  | cons p t ih =>
    obtain ⟨a, b⟩ := p
    show List.lookup k2 ((if a = k then (k, v) else (a, b)) :: updateAssoc t k v) = _
    by_cases hak : a = k
    · rw [if_pos hak]
      by_cases hk2 : k2 = k
      · rw [if_pos hk2, hk2, lookup_cons_eq, ← hak, lookup_cons_eq]
        rfl
      · rw [lookup_cons_ne _ _ _ _ hk2, ih, if_neg hk2, if_neg hk2,
          lookup_cons_ne _ _ _ _ (hak ▸ hk2)]
    · rw [if_neg hak]
      by_cases hk2a : k2 = a
      · rw [hk2a, lookup_cons_eq, if_neg hak, lookup_cons_eq]
      · rw [lookup_cons_ne _ _ _ _ hk2a, ih]
        by_cases hk2k : k2 = k
        · rw [if_pos hk2k, if_pos hk2k, lookup_cons_ne _ _ _ _ (fun hh => hak hh.symm)]
        · rw [if_neg hk2k, if_neg hk2k, lookup_cons_ne _ _ _ _ hk2a]

/-- Reduction of `markStep` when the face lookup of the edge is empty. -/
theorem markStep_nil (ctx : MeshCtx) (Theta : Vec) (Fsing : List ℕ)
    (acc : List ℕ × List (ℕ × ℝ)) (e : ℕ) (hfo : facesOfTwinEdge ctx e = []) :
    markStep ctx Theta Fsing acc e = acc := by
  unfold markStep
  rw [hfo]

/-- Reduction of `markStep` when the face lookup is non-empty. -/
theorem markStep_cons (ctx : MeshCtx) (Theta : Vec) (Fsing : List ℕ)
    (acc : List ℕ × List (ℕ × ℝ)) (e f0 : ℕ) (rest : List ℕ)
    (hfo : facesOfTwinEdge ctx e = f0 :: rest) :
    markStep ctx Theta Fsing acc e =
      (if f0 ∈ Fsing then acc
       else if f0 ∈ acc.1 then
         (if (acc.2.lookup f0).getD 0 < subdivisionNum (Theta e) then
            (acc.1, updateAssoc acc.2 f0 (subdivisionNum (Theta e)))
          else acc)
       else (acc.1 ++ [f0], acc.2 ++ [(f0, subdivisionNum (Theta e))])) := by
  unfold markStep
  rw [hfo]

/-- One step of the marking loop preserves the `MarkInv` invariant. -/
theorem markStep_inv (ctx : MeshCtx) (Theta : Vec) (Fsing : List ℕ) (seen : List ℕ)
    (acc : List ℕ × List (ℕ × ℝ)) (e : ℕ)
    (h : MarkInv ctx Theta Fsing seen acc) :
    MarkInv ctx Theta Fsing (seen ++ [e]) (markStep ctx Theta Fsing acc e) := by
  obtain ⟨h1, h2, h3⟩ := h
  cases hfo : facesOfTwinEdge ctx e with
  | nil =>
    rw [markStep_nil ctx Theta Fsing acc e hfo]
    refine ⟨?_, h2, ?_⟩
    · intro f
      rw [h1 f]
      constructor
      · rintro ⟨hfs, e2, he2, hne2, hface2⟩
        exact ⟨hfs, e2, List.mem_append_left _ he2, hne2, hface2⟩
      · rintro ⟨hfs, e2, he2, hne2, hface2⟩
        rcases List.mem_append.mp he2 with h' | h'
        · exact ⟨hfs, e2, h', hne2, hface2⟩
        · rw [List.mem_singleton] at h'
          subst h'
          exact absurd hfo hne2
    · intro f L hL
      obtain ⟨⟨e2, he2, hne2, hface2, hval⟩, hub⟩ := h3 f L hL
      refine ⟨⟨e2, List.mem_append_left _ he2, hne2, hface2, hval⟩, ?_⟩
      intro e3 he3 hne3 hface3
      rcases List.mem_append.mp he3 with h' | h'
      · exact hub e3 h' hne3 hface3
      · rw [List.mem_singleton] at h'
        subst h'
        exact absurd hfo hne3
  | cons f0 rest =>
    rw [markStep_cons ctx Theta Fsing acc e f0 rest hfo]
    have hfe : faceOfTwinEdge ctx e = f0 := by
      unfold faceOfTwinEdge
      rw [hfo]
      rfl
    have hnee : facesOfTwinEdge ctx e ≠ [] := by
      rw [hfo]
      exact List.cons_ne_nil f0 rest
    by_cases hsing : f0 ∈ Fsing
    · rw [if_pos hsing]
      refine ⟨?_, h2, ?_⟩
      · intro f
        rw [h1 f]
        constructor
        · rintro ⟨hfs, e2, he2, hne2, hface2⟩
          exact ⟨hfs, e2, List.mem_append_left _ he2, hne2, hface2⟩
        · rintro ⟨hfs, e2, he2, hne2, hface2⟩
          rcases List.mem_append.mp he2 with h' | h'
          · exact ⟨hfs, e2, h', hne2, hface2⟩
          · rw [List.mem_singleton] at h'
            subst h'
            rw [hfe] at hface2
            subst hface2
            exact absurd hsing hfs
      · intro f L hL
        obtain ⟨⟨e2, he2, hne2, hface2, hval⟩, hub⟩ := h3 f L hL
        refine ⟨⟨e2, List.mem_append_left _ he2, hne2, hface2, hval⟩, ?_⟩
        intro e3 he3 hne3 hface3
        rcases List.mem_append.mp he3 with h' | h'
        · exact hub e3 h' hne3 hface3
        · rw [List.mem_singleton] at h'
          subst h'
          rw [hfe] at hface3
          subst hface3
          have hfin : f0 ∈ acc.1 := (h2 f0).mpr (by rw [hL]; rfl)
          exact absurd hsing ((h1 f0).mp hfin).1
    · rw [if_neg hsing]
      by_cases hmem : f0 ∈ acc.1
      · rw [if_pos hmem]
        have hsome := (h2 f0).mp hmem
        obtain ⟨L0, hL0⟩ := Option.isSome_iff_exists.mp hsome
        by_cases hlt : (acc.2.lookup f0).getD 0 < subdivisionNum (Theta e)
        · rw [if_pos hlt]
          rw [hL0] at hlt
          simp only [Option.getD_some] at hlt
          refine ⟨?_, ?_, ?_⟩
          · intro f
            dsimp only
            rw [h1 f]
            constructor
            · rintro ⟨hfs, e2, he2, hne2, hface2⟩
              exact ⟨hfs, e2, List.mem_append_left _ he2, hne2, hface2⟩
            · rintro ⟨hfs, e2, he2, hne2, hface2⟩
              rcases List.mem_append.mp he2 with h' | h'
              · exact ⟨hfs, e2, h', hne2, hface2⟩
              · rw [List.mem_singleton] at h'
                subst h'
                rw [hfe] at hface2
                subst hface2
                exact (h1 _).mp hmem
          · intro f
            dsimp only
            rw [lookup_updateAssoc]
            by_cases hff0 : f = f0
            · subst hff0
              rw [if_pos rfl, hL0]
              simp [hmem]
            · rw [if_neg hff0]
              exact h2 f
          · intro f L hL
            dsimp only at hL
            rw [lookup_updateAssoc] at hL
            by_cases hff0 : f = f0
            · subst hff0
              rw [if_pos rfl, hL0] at hL
              simp only [Option.map_some'] at hL
              cases hL
              refine ⟨⟨e, List.mem_append_right _ (List.mem_singleton_self e),
                hnee, hfe, rfl⟩, ?_⟩
              intro e3 he3 hne3 hface3
              rcases List.mem_append.mp he3 with h' | h'
              · have hold := (h3 _ L0 hL0).2 e3 h' hne3 hface3
                exact le_of_lt (lt_of_le_of_lt hold hlt)
              · rw [List.mem_singleton] at h'
                subst h'
                exact le_refl _
            · rw [if_neg hff0] at hL
              obtain ⟨⟨e2, he2, hne2, hface2, hval⟩, hub⟩ := h3 f L hL
              refine ⟨⟨e2, List.mem_append_left _ he2, hne2, hface2, hval⟩, ?_⟩
              intro e3 he3 hne3 hface3
              rcases List.mem_append.mp he3 with h' | h'
              · exact hub e3 h' hne3 hface3
              · rw [List.mem_singleton] at h'
                subst h'
                rw [hfe] at hface3
                exact absurd hface3.symm hff0
        · rw [if_neg hlt]
          rw [hL0] at hlt
          simp only [Option.getD_some] at hlt
          rw [not_lt] at hlt
          refine ⟨?_, h2, ?_⟩
          · intro f
            rw [h1 f]
            constructor
            · rintro ⟨hfs, e2, he2, hne2, hface2⟩
              exact ⟨hfs, e2, List.mem_append_left _ he2, hne2, hface2⟩
            · rintro ⟨hfs, e2, he2, hne2, hface2⟩
              rcases List.mem_append.mp he2 with h' | h'
              · exact ⟨hfs, e2, h', hne2, hface2⟩
              · rw [List.mem_singleton] at h'
                subst h'
                rw [hfe] at hface2
                subst hface2
                exact (h1 _).mp hmem
          · intro f L hL
            obtain ⟨⟨e2, he2, hne2, hface2, hval⟩, hub⟩ := h3 f L hL
            refine ⟨⟨e2, List.mem_append_left _ he2, hne2, hface2, hval⟩, ?_⟩
            intro e3 he3 hne3 hface3
            rcases List.mem_append.mp he3 with h' | h'
            · exact hub e3 h' hne3 hface3
            · rw [List.mem_singleton] at h'
              subst h'
              rw [hfe] at hface3
              subst hface3
              have hLL0 : L = L0 := by
                rw [hL] at hL0
                cases hL0
                rfl
              rw [hLL0]
              exact hlt
      · rw [if_neg hmem]
        have hnone : acc.2.lookup f0 = none := by
          rcases hopt : acc.2.lookup f0 with _ | L0
          · rfl
          · exact absurd ((h2 f0).mpr (by rw [hopt]; rfl)) hmem
        refine ⟨?_, ?_, ?_⟩
        · intro f
          dsimp only
          constructor
          · intro hf
            rcases List.mem_append.mp hf with h' | h'
            · obtain ⟨hfs, e2, he2, hne2, hface2⟩ := (h1 f).mp h'
              exact ⟨hfs, e2, List.mem_append_left _ he2, hne2, hface2⟩
            · rw [List.mem_singleton] at h'
              subst h'
              exact ⟨hsing, e, List.mem_append_right _ (List.mem_singleton_self e),
                hnee, hfe⟩
          · rintro ⟨hfs, e2, he2, hne2, hface2⟩
            rcases List.mem_append.mp he2 with h' | h'
            · exact List.mem_append_left _ ((h1 f).mpr ⟨hfs, e2, h', hne2, hface2⟩)
            · rw [List.mem_singleton] at h'
              subst h'
              rw [hfe] at hface2
              subst hface2
              exact List.mem_append_right _ (List.mem_singleton_self _)
        · intro f
          dsimp only
          rw [List.lookup_append]
          by_cases hff0 : f = f0
          · subst hff0
            rw [hnone, lookup_cons_eq]
            simp
          · constructor
            · intro hf
              rcases List.mem_append.mp hf with h' | h'
              · obtain ⟨L0, hL0⟩ := Option.isSome_iff_exists.mp ((h2 f).mp h')
                rw [hL0]
                rfl
              · rw [List.mem_singleton] at h'
                exact absurd h' hff0
            · intro hf
              rw [lookup_cons_ne _ _ _ _ hff0, List.lookup_nil, Option.or_none] at hf
              exact List.mem_append_left _ ((h2 f).mpr hf)
        · intro f L hL
          dsimp only at hL
          rw [List.lookup_append] at hL
          by_cases hff0 : f = f0
          · subst hff0
            rw [hnone, lookup_cons_eq, Option.none_or] at hL
            cases hL
            refine ⟨⟨e, List.mem_append_right _ (List.mem_singleton_self e),
              hnee, hfe, rfl⟩, ?_⟩
            intro e3 he3 hne3 hface3
            rcases List.mem_append.mp he3 with h' | h'
            · exact absurd ((h1 _).mpr ⟨hsing, e3, h', hne3, hface3⟩) hmem
            · rw [List.mem_singleton] at h'
              subst h'
              exact le_refl _
          · rw [lookup_cons_ne _ _ _ _ hff0, List.lookup_nil, Option.or_none] at hL
            obtain ⟨⟨e2, he2, hne2, hface2, hval⟩, hub⟩ := h3 f L hL
            refine ⟨⟨e2, List.mem_append_left _ he2, hne2, hface2, hval⟩, ?_⟩
            intro e3 he3 hne3 hface3
            rcases List.mem_append.mp he3 with h' | h'
            · exact hub e3 h' hne3 hface3
            · rw [List.mem_singleton] at h'
              subst h'
              rw [hfe] at hface3
              exact absurd hface3.symm hff0

/-- The invariant holds after folding any list of edges. -/
theorem foldl_markStep_inv (ctx : MeshCtx) (Theta : Vec) (Fsing : List ℕ) :
    ∀ (es seen : List ℕ) (acc : List ℕ × List (ℕ × ℝ)),
      MarkInv ctx Theta Fsing seen acc →
      MarkInv ctx Theta Fsing (seen ++ es) (es.foldl (markStep ctx Theta Fsing) acc) := by
  intro es
  induction es with
  | nil =>
    intro seen acc h
    simpa using h
  | cons e tl ih =>
    intro seen acc h
    have hstep := markStep_inv ctx Theta Fsing seen acc e h
    have htail := ih (seen ++ [e]) (markStep ctx Theta Fsing acc e) hstep
    rw [List.append_assoc] at htail
    simpa using htail

/-- The invariant holds at the start of the marking loop. -/
theorem markInv_init (ctx : MeshCtx) (Theta : Vec) (Fsing : List ℕ) :
    MarkInv ctx Theta Fsing [] ([], []) := by
  refine ⟨?_, ?_, ?_⟩
  · intro f
    simp
  · intro f
    simp
  · intro f L hL
    simp at hL

/-- Claim C5 (amended): `subdivide_faces_over_pi` marks exactly the
non-singular faces having at least one twin edge with `|Theta| > pi/2`;
the level it records for a marked face is
`floor(|Theta_max_edge| / (pi/2)) + 1` — the subdivision number of one of
the face's over-threshold edges, and an upper bound for all of them — where
the claimed ceiling formula `ceil(|Theta| / (pi/2))` agrees except at exact
multiples of `pi/2` (see the counterexample at `Theta = pi`); and the face
is subdivided into exactly `N^2` barycentric sub-triangles. -/
theorem C5_subdivision_marking :
    ∀ (ctx : MeshCtx) (Theta : Vec) (Fsing : List ℕ),
      (∀ e, e ∈ overPiEdges ctx Theta ↔
        (e ∈ List.range ctx.nEtwin ∧ |Theta e| > Real.pi / 2)) ∧
      (∀ f, f ∈ (subdivisionMarks ctx Theta Fsing).1 ↔
        (f ∉ Fsing ∧ ∃ e ∈ overPiEdges ctx Theta,
          facesOfTwinEdge ctx e ≠ [] ∧ faceOfTwinEdge ctx e = f)) ∧
      (∀ f, f ∈ (subdivisionMarks ctx Theta Fsing).1 ↔
        ((subdivisionMarks ctx Theta Fsing).2.lookup f).isSome) ∧
      (∀ f L, (subdivisionMarks ctx Theta Fsing).2.lookup f = some L →
        ((∃ e ∈ overPiEdges ctx Theta, facesOfTwinEdge ctx e ≠ [] ∧
            faceOfTwinEdge ctx e = f ∧ L = subdivisionNum (Theta e)) ∧
         (∀ e ∈ overPiEdges ctx Theta, facesOfTwinEdge ctx e ≠ [] →
            faceOfTwinEdge ctx e = f → subdivisionNum (Theta e) ≤ L))) ∧
      (∀ N, (subTriangles N).length = N ^ 2) := by
  intro ctx Theta Fsing
  have hinv := foldl_markStep_inv ctx Theta Fsing (overPiEdges ctx Theta) [] ([], [])
    (markInv_init ctx Theta Fsing)
  rw [List.nil_append] at hinv
  obtain ⟨h1, h2, h3⟩ := hinv
  refine ⟨?_, h1, h2, h3, subTriangles_length⟩
  intro e
  unfold overPiEdges
  rw [List.mem_filter]
  constructor
  · rintro ⟨hr, hd⟩
    exact ⟨hr, of_decide_eq_true hd⟩
  · rintro ⟨hr, hd⟩
    exact ⟨hr, decide_eq_true hd⟩
